import Mathlib

/-!
Verification of the Content Registry View of the Llog repository: the
paginated, filterable, folder-scoped content listing and its mutation
workflow (move / rename-folder / delete / refresh / metadata editing).

The breadcrumb decomposition and the pagination page-number window are
embedded directly from the Jinja templates (`templates/base.html`,
`templates/metadata_view.html`, and the cached-content view template).
The Flask route handlers realising the Query/Filter Engine and the
Mutation Handlers are not part of the source tree that accompanies the
specification (only the templates that call them are), so those
operations are modelled from the specification text; every such
definition carries a doc comment saying so.

Strings are processed through character-list helpers with structural
recursion, mirroring Python string semantics (`split`, `lower`,
substring containment), so that all statements evaluate inside the
kernel.
-/

namespace Llog

/-- ASCII-style lowercasing of a character list, mirroring Python
`str.lower()` on the ASCII titles the application manipulates. -/
def lowerChars (cs : List Char) : List Char := cs.map Char.toLower

/-- Whether the first character list starts with the second, mirroring
Python `str.startswith`. -/
def chStartsWith : List Char → List Char → Bool
  | _, [] => true
  | [], _ :: _ => false
  | c :: cs, p :: ps => c == p && chStartsWith cs ps

/-- Whether the first character list contains the second as a
contiguous run, mirroring the Python containment test used for the
title filter. -/
def chContainsSub : List Char → List Char → Bool
  | [], needle => chStartsWith [] needle
  | c :: rest, needle => chStartsWith (c :: rest) needle || chContainsSub rest needle

/-- One indexed-content record, after the data model of the
specification: `id`, `title`, `type` (one of page / database / pdf /
text / markdown / document), `folder` (path with `/` separators, empty
string meaning root), optional Notion origin id, structured
auto-metadata and a creation timestamp. -/
structure AutoMetadata where
  summary : String
  language : String
  contentType : String
  themes : List String
  topics : List String
  keywords : List String
  entities : List String
  auto_generated : Bool
deriving DecidableEq

structure Item where
  id : Nat
  title : String
  type : String
  folder : String
  notion_id : String
  auto_metadata : AutoMetadata
  created_at : Nat
deriving DecidableEq

/-- Python-style split on the `/` separator, as performed by
`current_folder.split('/')` in the breadcrumb loops of
`templates/base.html` and `templates/metadata_view.html`.  The first
argument accumulates the characters of the segment currently being
read, in reverse. -/
def splitSlashAux : List Char → List Char → List String
  | acc, [] => [String.mk acc.reverse]
  | acc, c :: cs =>
    if c == '/' then String.mk acc.reverse :: splitSlashAux [] cs
    else splitSlashAux (c :: acc) cs

def splitSlash (s : String) : List String := splitSlashAux [] s.data

/-- Cumulative-path step of the breadcrumb loops: the templates extend
`current_path` with `'/' + part` when it is non-empty and start it with
`part` otherwise. -/
def joinStep (currentPath : List Char) (seg : String) : List Char :=
  if currentPath.isEmpty then seg.data else currentPath ++ '/' :: seg.data

/-- Breadcrumb loop body of `templates/base.html` (folder breadcrumbs
over `current_folder.split('/')`) and `templates/metadata_view.html`
(over `metadata.folder.split('/')`).  A plain Jinja2 `set` inside a
`for` block is iteration-local (no `namespace()` object is used), so
every iteration re-enters with the enclosing-scope value of
`current_path` — the empty string set just before the loop.  A
non-empty part therefore always takes the else branch, sets
`current_path` to the part itself, and emits the pair of the part with
itself; empty parts are skipped. -/
def breadcrumbAux : List String → List (String × String)
  | [] => []
  | seg :: rest =>
    if seg == "" then breadcrumbAux rest
    else (seg, String.mk (joinStep [] seg)) :: breadcrumbAux rest

/-- Breadcrumb pairs actually rendered by the templates. -/
def breadcrumbs (folder : String) : List (String × String) :=
  breadcrumbAux (splitSlash folder)

/-- Decomposition prescribed by the specification's words (§4.2: for
"a/b/c" the ordered segments `[("a","a"), ("b","a/b"), ("c","a/b/c")]`
with the second component the cumulative path), written from the spec
for comparison with the template embedding: here the cumulative path
is threaded across iterations. -/
def specBreadcrumbAux : List Char → List String → List (String × String)
  | _, [] => []
  | currentPath, seg :: rest =>
    if seg == "" then specBreadcrumbAux currentPath rest
    else (seg, String.mk (joinStep currentPath seg)) ::
      specBreadcrumbAux (joinStep currentPath seg) rest

def specBreadcrumbs (folder : String) : List (String × String) :=
  specBreadcrumbAux [] (splitSlash folder)

theorem breadcrumbAux_map_fst (parts : List String) :
    (breadcrumbAux parts).map Prod.fst = parts.filter (fun p => p != "") := by
  induction parts with
  | nil => rfl
  | cons seg rest ih =>
    by_cases h : seg = ""
    · subst h
      simp [breadcrumbAux, List.filter, ih]
    · have hb : (seg == "") = false := by simpa using h
      have hb' : (seg != "") = true := by simp [bne, hb]
      simp [breadcrumbAux, List.filter, hb, hb', ih]

/-- C9: code bug.  The claimed cumulative (segment, cumulative path)
pairs are what the specification prescribes — `specBreadcrumbs`, the
definition written from the spec's words, computes them — but the
templates' loop assigns `current_path` with a plain Jinja2 `set` inside
the `for` block, which is iteration-local, so the rendered breadcrumbs
pair every segment with itself: on the folder path "a/b/c" the code
emits [("a","a"), ("b","b"), ("c","c")] and diverges from the claimed
[("a","a"), ("b","a/b"), ("c","a/b/c")] from the second segment on.
The empty-segment-dropping part of the claim does hold of the code:
the segments of the rendered decomposition are exactly the non-empty
parts of the slash-split, in order. -/
theorem breadcrumb_decomposition :
    breadcrumbs "a/b/c" = [("a", "a"), ("b", "b"), ("c", "c")] ∧
    specBreadcrumbs "a/b/c" = [("a", "a"), ("b", "a/b"), ("c", "a/b/c")] ∧
    breadcrumbs "a/b/c" ≠ specBreadcrumbs "a/b/c" ∧
    breadcrumbs "/a//b/" = [("a", "a"), ("b", "b")] ∧
    ∀ s : String,
      (breadcrumbs s).map Prod.fst = (splitSlash s).filter (fun p => p != "") := by
  refine ⟨by decide, by decide, by decide, by decide, ?_⟩
  intro s
  exact breadcrumbAux_map_fst (splitSlash s)

/-- Modelled from the spec: the Query/Filter Engine lives in the Flask
route handlers (`file_view` / `file_storage`), which are not under the
accompanying source tree — only the templates that call them are.  Per
§4.1, the title filter is a case-insensitive substring match against
`title`; an empty filter string means the filter is not supplied. -/
def matchesTitleFilter (ftitle : String) (it : Item) : Bool :=
  ftitle == "" || chContainsSub (lowerChars it.title.data) (lowerChars ftitle.data)

/-- Modelled from the spec: type filter of the Query/Filter Engine
(route handlers not under the source tree); exact match, empty filter
means all types. -/
def matchesTypeFilter (ftype : String) (it : Item) : Bool :=
  ftype == "" || it.type == ftype

/-- Modelled from the spec: folder filter of the Query/Filter Engine
(route handlers not under the source tree); exact equality against the
item folder when a folder context is active, `none` means
unfiltered-by-folder. -/
def matchesFolderFilter (ffolder : Option String) (it : Item) : Bool :=
  match ffolder with
  | none => true
  | some f => it.folder == f

/-- Modelled from the spec: conjunctive filtering of the Query/Filter
Engine (§4.1, route handlers not under the source tree) — an item
passes only if it matches all supplied non-empty filters; ordering of
the store is preserved. -/
def filterItems (ftitle ftype : String) (ffolder : Option String)
    (items : List Item) : List Item :=
  items.filter fun it =>
    matchesTitleFilter ftitle it && matchesTypeFilter ftype it &&
      matchesFolderFilter ffolder it

/-- Modelled from the spec: `total_pages = ceil(total_items /
per_page)` (§4.1, route handlers not under the source tree). -/
def totalPages (total per : Nat) : Nat := (total + per - 1) / per

/-- Modelled from the spec: the page slice of the Query/Filter Engine
(§4.1, route handlers not under the source tree) — 1-indexed pages of
`per` items each in store order; out-of-range page requests return an
empty slice, fail-soft, never raising. -/
def pageSlice (l : List Item) (page per : Nat) : List Item :=
  if page = 0 then [] else (l.drop ((page - 1) * per)).take per

/-- Items of the scenario fixed by the specification (§8): ids 1-3 with
titles "Algebra Notes" / "Algebra Exam" / "History". -/
def defaultAutoMetadata : AutoMetadata := ⟨"", "", "", [], [], [], [], false⟩

def algebraNotes : Item :=
  ⟨1, "Algebra Notes", "pdf", "", "", defaultAutoMetadata, 0⟩

def algebraExam : Item :=
  ⟨2, "Algebra Exam", "pdf", "math", "", defaultAutoMetadata, 0⟩

def historyItem : Item :=
  ⟨3, "History", "text", "history", "", defaultAutoMetadata, 0⟩

def scenarioItems : List Item := [algebraNotes, algebraExam, historyItem]

/-- C2: an item appears in the engine result iff it is in the store and
matches all supplied filters — title: case-insensitive substring; type:
exact; folder: exact; an empty/omitted filter constrains nothing.  On
the specification scenario, filter title "algebra" returns exactly the
items with ids 1 and 2 in their original order. -/
theorem filter_conjunctive_title_substring :
    (∀ (items : List Item) (ftitle ftype : String) (ffolder : Option String) (it : Item),
      it ∈ filterItems ftitle ftype ffolder items ↔
        it ∈ items ∧
          (ftitle = "" ∨
            chContainsSub (lowerChars it.title.data) (lowerChars ftitle.data) = true) ∧
          (ftype = "" ∨ it.type = ftype) ∧
          (∀ f, ffolder = some f → it.folder = f)) ∧
    filterItems "algebra" "" none scenarioItems = [algebraNotes, algebraExam] := by
  constructor
  · intro items ftitle ftype ffolder it
    simp only [filterItems, List.mem_filter, Bool.and_eq_true, Bool.or_eq_true,
      beq_iff_eq, matchesTitleFilter, matchesTypeFilter, matchesFolderFilter]
    cases ffolder
    · simp
    · simp
      tauto
  · decide

theorem pageSlice_succ (l : List Item) (q per : Nat) :
    pageSlice l (q + 1) per = (l.drop (q * per)).take per := by
  have h : ¬ (q + 1 = 0) := Nat.succ_ne_zero q
  simp [pageSlice, h]

theorem pageSlice_length_le (l : List Item) (page per : Nat) :
    (pageSlice l page per).length ≤ per := by
  unfold pageSlice
  split
  · simp
  · rw [List.length_take]
    exact Nat.min_le_left _ _

theorem totalPages_mul_ge (total per : Nat) (hper : 0 < per) :
    total ≤ totalPages total per * per := by
  have h1 := Nat.div_add_mod (total + per - 1) per
  have h2 : (total + per - 1) % per < per := Nat.mod_lt _ hper
  unfold totalPages
  rw [Nat.mul_comm]
  omega

theorem totalPages_le (total per n : Nat) (hper : 0 < per) (hn : total ≤ n * per) :
    totalPages total per ≤ n := by
  unfold totalPages
  rw [← Nat.lt_succ_iff, Nat.div_lt_iff_lt_mul hper, Nat.succ_mul]
  omega

theorem pageSlice_disjoint (l : List Item) (per p : Nat) (hp : 1 ≤ p)
    (hl : l.Nodup) :
    List.Disjoint (pageSlice l p per) (pageSlice l (p + 1) per) := by
  obtain ⟨q, rfl⟩ : ∃ q, p = q + 1 := ⟨p - 1, by omega⟩
  intro a ha hb
  rw [pageSlice_succ] at ha
  rw [pageSlice_succ, Nat.succ_mul, ← List.drop_drop] at hb
  have hl' : (l.drop (q * per)).Nodup := (List.drop_sublist _ _).nodup hl
  have hdisj := List.disjoint_take_drop hl' (Nat.le_refl per)
  exact hdisj ha (List.mem_of_mem_take hb)

/-- Modelled from the spec: the concatenation, in page order, of the
slices for pages `p, p+1, ..., p+n-1` of the engine result. -/
def concatSlicesFrom (l : List Item) (per : Nat) (p : Nat) : Nat → List Item
  | 0 => []
  | n + 1 => pageSlice l p per ++ concatSlicesFrom l per (p + 1) n

theorem concatSlicesFrom_shift (per : Nat) :
    ∀ (n p : Nat) (l : List Item), 1 ≤ p →
      concatSlicesFrom l per (p + 1) n = concatSlicesFrom (l.drop per) per p n := by
  intro n
  induction n with
  | zero => intro p l _; rfl
  | succ m ih =>
    intro p l hp
    obtain ⟨q, rfl⟩ : ∃ q, p = q + 1 := ⟨p - 1, by omega⟩
    have hs : pageSlice l (q + 1 + 1) per = pageSlice (l.drop per) (q + 1) per := by
      rw [pageSlice_succ, pageSlice_succ, List.drop_drop]
      have h : (q + 1) * per = per + q * per := by
        rw [Nat.succ_mul]
        omega
      rw [h]
    simp only [concatSlicesFrom]
    rw [hs, ih (q + 1 + 1) l (by omega), ih]
    omega

theorem concatSlicesFrom_eq (per : Nat) :
    ∀ (n : Nat) (l : List Item), l.length ≤ n * per →
      concatSlicesFrom l per 1 n = l := by
  intro n
  induction n with
  | zero =>
    intro l hl
    rw [Nat.zero_mul] at hl
    have : l = [] := List.length_eq_zero.mp (by omega)
    simp [this, concatSlicesFrom]
  | succ m ih =>
    intro l hl
    simp only [concatSlicesFrom]
    have h1 : pageSlice l 1 per = l.take per := by
      have := pageSlice_succ l 0 per
      simpa using this
    have h2 : concatSlicesFrom l per (1 + 1) m = concatSlicesFrom (l.drop per) per 1 m :=
      concatSlicesFrom_shift per m 1 l (Nat.le_refl 1)
    have h3 : (l.drop per).length ≤ m * per := by
      rw [Nat.succ_mul] at hl
      rw [List.length_drop]
      omega
    rw [h1, h2, ih _ h3, List.take_append_drop]

/-- C1: for every store, every filter combination and every `per_page`
in the offered set, each page slice of the engine result has at most
`per_page` items, slices for consecutive pages are disjoint (given the
store invariant of pairwise-distinct ids), and the concatenation of the
slices for pages 1 through `total_pages`, in page order, reproduces the
full filtered list. -/
theorem engine_pagination_partition (items : List Item) (ftitle ftype : String)
    (ffolder : Option String) (per : Nat)
    (hper : per ∈ ([5, 10, 25, 50] : List Nat)) :
    (∀ page, (pageSlice (filterItems ftitle ftype ffolder items) page per).length ≤ per) ∧
    (((filterItems ftitle ftype ffolder items).map Item.id).Nodup →
      ∀ p, 1 ≤ p →
        List.Disjoint (pageSlice (filterItems ftitle ftype ffolder items) p per)
          (pageSlice (filterItems ftitle ftype ffolder items) (p + 1) per)) ∧
    concatSlicesFrom (filterItems ftitle ftype ffolder items) per 1
        (totalPages (filterItems ftitle ftype ffolder items).length per) =
      filterItems ftitle ftype ffolder items := by
  have hpos : 0 < per := by
    simp only [List.mem_cons, List.not_mem_nil, or_false] at hper
    rcases hper with h | h | h | h <;> omega
  refine ⟨fun page => pageSlice_length_le _ _ _, ?_, ?_⟩
  · intro hno p hp
    exact pageSlice_disjoint _ per p hp (List.Nodup.of_map _ hno)
  · exact concatSlicesFrom_eq per _ _
      (totalPages_mul_ge (filterItems ftitle ftype ffolder items).length per hpos)

/-- Witness for C1 at a concrete input. -/
theorem engine_pagination_partition_witness :
    concatSlicesFrom (filterItems "algebra" "" none scenarioItems) 5 1
        (totalPages (filterItems "algebra" "" none scenarioItems).length 5) =
      filterItems "algebra" "" none scenarioItems :=
  (engine_pagination_partition scenarioItems "algebra" "" none 5 (by decide)).2.2

/-- C3: the engine reports `total_pages = ceil(total_items /
per_page)` (characterised as the least page count whose pages cover all
items), every out-of-range page request yields the empty slice without
raising, and with `per_page = 1` and 3 matching items `total_pages = 3`
while requesting page 4 yields the empty slice. -/
theorem pagination_ceil_and_out_of_range (l : List Item) (per page : Nat)
    (hper : 0 < per) :
    (l.length ≤ totalPages l.length per * per ∧
      ∀ n, l.length ≤ n * per → totalPages l.length per ≤ n) ∧
    (page = 0 ∨ totalPages l.length per < page → pageSlice l page per = []) ∧
    (l.length = 3 → totalPages l.length 1 = 3 ∧ pageSlice l 4 1 = []) := by
  refine ⟨⟨totalPages_mul_ge _ _ hper, fun n hn => totalPages_le _ _ _ hper hn⟩, ?_, ?_⟩
  · rintro (h | h)
    · simp [pageSlice, h]
    · obtain ⟨q, rfl⟩ : ∃ q, page = q + 1 := ⟨page - 1, by omega⟩
      rw [pageSlice_succ]
      have hlen : l.length ≤ q * per :=
        calc l.length ≤ totalPages l.length per * per := totalPages_mul_ge _ _ hper
          _ ≤ q * per := Nat.mul_le_mul_right per (by omega)
      rw [List.drop_eq_nil_of_le hlen]
      simp
  · intro h3
    refine ⟨by rw [h3]; decide, ?_⟩
    have h4 : pageSlice l 4 1 = (l.drop 3).take 1 := by
      simp [pageSlice]
    rw [h4, List.drop_eq_nil_of_le (by omega)]
    simp

/-- Witness for C3 at a concrete input. -/
theorem pagination_ceil_and_out_of_range_witness :
    scenarioItems.length = 3 ∧
    (totalPages scenarioItems.length 1 = 3 ∧ pageSlice scenarioItems 4 1 = []) :=
  ⟨by decide,
    (pagination_ceil_and_out_of_range scenarioItems 1 4 (by decide)).2.2 (by decide)⟩

theorem chStartsWith_iff : ∀ (l p : List Char), chStartsWith l p = true ↔ ∃ t, l = p ++ t := by
  intro l p
  induction p generalizing l with
  | nil =>
    constructor
    · intro _
      exact ⟨l, rfl⟩
    · intro _
      cases l <;> rfl
  | cons ph pt ih =>
    cases l with
    | nil => simp [chStartsWith]
    | cons c cs =>
      rw [show chStartsWith (c :: cs) (ph :: pt) = (c == ph && chStartsWith cs pt) from rfl]
      simp only [Bool.and_eq_true, beq_iff_eq, ih]
      constructor
      · rintro ⟨rfl, t, rfl⟩
        exact ⟨t, rfl⟩
      · rintro ⟨t, ht⟩
        injection ht with h1 h2
        exact ⟨h1, t, h2⟩

theorem string_eq_of_data {a b : String} (h : a.data = b.data) : a = b := by
  cases a
  cases b
  exact congrArg String.mk h

theorem append_slash_ne (old rest : String) : old ++ "/" ++ rest ≠ old := by
  intro h
  have hd := congrArg (fun s => s.data.length) h
  simp [String.data_append] at hd

/-- Modelled from the spec: folder rename of §4.2 (the rename-folder
mutation handler is not under the source tree) — a folder equal to
`old` becomes `new`; a folder beginning with `old` followed by the
separator has that leading part replaced by `new`; any other folder is
untouched. -/
def renameFolderPath (old new folder : String) : String :=
  if folder = old then new
  else if chStartsWith folder.data (old.data ++ ['/']) then
    String.mk (new.data ++ folder.data.drop old.data.length)
  else folder

/-- Modelled from the spec: the bulk rename applies the path rewrite to
every item of the store in one atomic step. -/
def renameFolder (old new : String) (items : List Item) : List Item :=
  items.map fun it => { it with folder := renameFolderPath old new it.folder }

theorem renameFolderPath_eq_old (old new : String) :
    renameFolderPath old new old = new := by
  simp [renameFolderPath]

theorem renameFolderPath_nested (old new rest : String) :
    renameFolderPath old new (old ++ "/" ++ rest) = new ++ "/" ++ rest := by
  unfold renameFolderPath
  rw [if_neg (append_slash_ne old rest)]
  have hdata : (old ++ "/" ++ rest).data = old.data ++ ('/' :: rest.data) := by
    simp [String.data_append]
  have hsw : chStartsWith (old ++ "/" ++ rest).data (old.data ++ ['/']) = true := by
    rw [chStartsWith_iff]
    exact ⟨rest.data, by rw [hdata]; simp⟩
  rw [if_pos hsw]
  apply string_eq_of_data
  show new.data ++ (old ++ "/" ++ rest).data.drop old.data.length = _
  rw [hdata, show old.data ++ ('/' :: rest.data) = old.data ++ ('/' :: rest.data) from rfl,
    List.drop_left' (rfl : old.data.length = old.data.length)]
  simp [String.data_append]

theorem renameFolderPath_untouched (old new folder : String)
    (h1 : folder ≠ old) (h2 : ¬ ∃ rest, folder = old ++ "/" ++ rest) :
    renameFolderPath old new folder = folder := by
  unfold renameFolderPath
  rw [if_neg h1]
  have hsw : ¬ chStartsWith folder.data (old.data ++ ['/']) = true := by
    rw [chStartsWith_iff]
    rintro ⟨t, ht⟩
    apply h2
    refine ⟨String.mk t, ?_⟩
    apply string_eq_of_data
    rw [ht]
    simp [String.data_append]
  rw [if_neg hsw]

/-- C4: after renaming folder `old` to `new`, every item whose folder
equalled `old`, or began with `old` followed by the separator, has
exactly that leading part replaced by `new`; every other item is
completely unchanged and keeps its position, the whole update being a
single atomic transformation of the store. -/
theorem rename_folder_subtree_rewrite (old new : String) (items : List Item) :
    (renameFolder old new items).length = items.length ∧
    ∀ (i : Nat) (it : Item), items[i]? = some it →
      ((it.folder = old →
          (renameFolder old new items)[i]? = some { it with folder := new }) ∧
        (∀ rest, it.folder = old ++ "/" ++ rest →
          (renameFolder old new items)[i]? =
            some { it with folder := new ++ "/" ++ rest }) ∧
        (it.folder ≠ old → (¬ ∃ rest, it.folder = old ++ "/" ++ rest) →
          (renameFolder old new items)[i]? = some it)) := by
  constructor
  · simp [renameFolder]
  · intro i it hit
    have hmap : (renameFolder old new items)[i]? =
        some { it with folder := renameFolderPath old new it.folder } := by
      simp [renameFolder, List.getElem?_map, hit]
    refine ⟨?_, ?_, ?_⟩
    · intro h
      rw [hmap, h, renameFolderPath_eq_old]
    · intro rest h
      rw [hmap, h, renameFolderPath_nested]
    · intro h1 h2
      rw [hmap, renameFolderPath_untouched old new it.folder h1 h2]

def renameDemoItems : List Item :=
  [⟨1, "t1", "pdf", "a/b", "", defaultAutoMetadata, 0⟩,
    ⟨2, "t2", "pdf", "a/b/c", "", defaultAutoMetadata, 0⟩,
    ⟨3, "t3", "pdf", "z", "", defaultAutoMetadata, 0⟩]

/-- Witness for C4 at a concrete input. -/
theorem rename_folder_subtree_rewrite_witness :
    (renameFolder "a/b" "x/y" renameDemoItems)[1]? =
      some ⟨2, "t2", "pdf", "x/y/c", "", defaultAutoMetadata, 0⟩ := by
  have h := (rename_folder_subtree_rewrite "a/b" "x/y" renameDemoItems).2 1
    ⟨2, "t2", "pdf", "a/b/c", "", defaultAutoMetadata, 0⟩ (by decide)
  have h2 := h.2.1 "c" (by decide)
  exact h2.trans (by decide)

/-- Error kinds of the specification (§7); only `NotFoundError` is
exercised by the claims. -/
inductive StoreError where
  | NotFoundError
deriving DecidableEq

/-- Modelled from the spec: per-item effect of the move-item handler —
set the `folder` field of the item with the given id. -/
def setFolderIf (iid : Nat) (dest : String) (it : Item) : Item :=
  if it.id == iid then { it with folder := dest } else it

/-- Modelled from the spec: move-item mutation handler (§4.3, not under
the source tree) — validates that the item exists, failing with
`NotFoundError` otherwise, then sets the `folder` field; the empty
string denotes root. -/
def moveItem (items : List Item) (iid : Nat) (dest : String) :
    Except StoreError (List Item) :=
  if items.any (fun it => it.id == iid) then
    Except.ok (items.map (setFolderIf iid dest))
  else
    Except.error StoreError.NotFoundError

theorem setFolderIf_id (iid : Nat) (dest : String) (it : Item) :
    (setFolderIf iid dest it).id = it.id := by
  unfold setFolderIf
  split <;> rfl

theorem setFolderIf_self (iid : Nat) (dest : String) (it : Item)
    (h : it.id = iid → it.folder = dest) : setFolderIf iid dest it = it := by
  unfold setFolderIf
  split
  · rename_i hb
    have hfold := h (by simpa using hb)
    cases it
    simp_all
  · rfl

theorem setFolderIf_roundtrip (iid : Nat) (F : String) (it : Item) :
    setFolderIf iid F (setFolderIf iid "" (setFolderIf iid F it)) =
      setFolderIf iid F it := by
  unfold setFolderIf
  by_cases h : it.id == iid <;> simp [h]

theorem moveItem_any_map (iid : Nat) (dest : String) (items : List Item)
    (h : items.any (fun it => it.id == iid) = true) :
    (items.map (setFolderIf iid dest)).any (fun it => it.id == iid) = true := by
  rw [List.any_map]
  obtain ⟨x, hx, hxid⟩ := List.any_eq_true.mp h
  exact List.any_eq_true.mpr ⟨x, hx, by simpa [Function.comp, setFolderIf_id] using hxid⟩

/-- C5: moving an item to the folder it already occupies is a no-op
success; moving to F, then to root, then back to F leaves the store
exactly as after the first move to F; moving an id absent from the
store fails with `NotFoundError`. -/
theorem move_item_algebra (items : List Item) (iid : Nat) (F : String) :
    ((∃ it ∈ items, it.id = iid) →
      (∀ it ∈ items, it.id = iid → it.folder = F) →
      moveItem items iid F = Except.ok items) ∧
    ((moveItem items iid F).bind (fun s => moveItem s iid "")).bind
        (fun s => moveItem s iid F) = moveItem items iid F ∧
    ((∀ it ∈ items, it.id ≠ iid) →
      moveItem items iid F = Except.error StoreError.NotFoundError) := by
  refine ⟨?_, ?_, ?_⟩
  · intro hex hsame
    have hany : items.any (fun it => it.id == iid) = true := by
      obtain ⟨it, hmem, hid⟩ := hex
      exact List.any_eq_true.mpr ⟨it, hmem, by simpa using hid⟩
    have hmap : items.map (setFolderIf iid F) = items :=
      calc items.map (setFolderIf iid F)
          = items.map id := List.map_congr_left fun it hmem =>
            setFolderIf_self iid F it (hsame it hmem)
        _ = items := List.map_id items
    simp [moveItem, hany, hmap]
  · by_cases hany : items.any (fun it => it.id == iid) = true
    · have h2 := moveItem_any_map iid F items hany
      have h3 := moveItem_any_map iid "" _ h2
      have e1 : moveItem items iid F = Except.ok (items.map (setFolderIf iid F)) := by
        unfold moveItem
        rw [if_pos hany]
      have e2 : moveItem (items.map (setFolderIf iid F)) iid "" =
          Except.ok ((items.map (setFolderIf iid F)).map (setFolderIf iid "")) := by
        unfold moveItem
        rw [if_pos h2]
      have e3 : moveItem ((items.map (setFolderIf iid F)).map (setFolderIf iid "")) iid F
          = Except.ok ((((items.map (setFolderIf iid F)).map (setFolderIf iid "")).map
              (setFolderIf iid F))) := by
        unfold moveItem
        rw [if_pos h3]
      rw [e1]
      rw [show (Except.ok (items.map (setFolderIf iid F))).bind
          (fun s => moveItem s iid "") = moveItem (items.map (setFolderIf iid F)) iid ""
        from rfl, e2]
      rw [show (Except.ok ((items.map (setFolderIf iid F)).map (setFolderIf iid ""))).bind
          (fun s => moveItem s iid F) =
          moveItem ((items.map (setFolderIf iid F)).map (setFolderIf iid "")) iid F
        from rfl, e3]
      rw [List.map_map, List.map_map]
      congr 1
      apply List.map_congr_left
      intro it _
      exact setFolderIf_roundtrip iid F it
    · have e1 : moveItem items iid F = Except.error StoreError.NotFoundError := by
        unfold moveItem
        rw [if_neg hany]
      rw [e1]
      rfl
  · intro hnone
    have hany : items.any (fun it => it.id == iid) = false := by
      rw [List.any_eq_false]
      intro it hmem
      simpa using hnone it hmem
    simp [moveItem, hany]

/-- Witness for C5 at a concrete input. -/
theorem move_item_algebra_witness :
    moveItem scenarioItems 2 "math" = Except.ok scenarioItems := by
  have h := (move_item_algebra scenarioItems 2 "math").1
  exact h ⟨algebraExam, by decide, by decide⟩ (by decide)

/-- Modelled from the spec: delete-item mutation handler (§4.3, not
under the source tree) — removes the Item record with the given
id from the store. -/
def deleteItem (items : List Item) (iid : Nat) : List Item :=
  items.filter fun it => ! (it.id == iid)

/-- C6: once an item id has been deleted, no subsequent listing — for
any filter combination and any page — contains an item with that id. -/
theorem delete_item_never_listed (items : List Item) (iid : Nat)
    (ftitle ftype : String) (ffolder : Option String) (page per : Nat) :
    ∀ it ∈ pageSlice (filterItems ftitle ftype ffolder (deleteItem items iid)) page per,
      it.id ≠ iid := by
  intro it hit
  have h1 : it ∈ filterItems ftitle ftype ffolder (deleteItem items iid) := by
    unfold pageSlice at hit
    split at hit
    · cases hit
    · exact List.mem_of_mem_drop (List.mem_of_mem_take hit)
  have h2 : it ∈ deleteItem items iid := (List.mem_filter.mp h1).1
  have h3 := (List.mem_filter.mp h2).2
  simpa using h3

/-- Witness for C6 at a concrete input. -/
theorem delete_item_never_listed_witness :
    algebraNotes ∈ pageSlice (filterItems "" "" none (deleteItem scenarioItems 2)) 1 5 ∧
    algebraNotes.id ≠ 2 :=
  ⟨by decide,
    delete_item_never_listed scenarioItems 2 "" "" none 1 5 algebraNotes (by decide)⟩

/-- Witness for C2 at a concrete input. -/
theorem filter_conjunctive_title_substring_witness :
    algebraNotes ∈ filterItems "algebra" "" none scenarioItems := by
  have h := filter_conjunctive_title_substring.1 scenarioItems "algebra" "" none algebraNotes
  exact h.mpr ⟨by decide, by decide, by decide, fun f hf => Option.noConfusion hf⟩

/-- Modelled from the spec: successful AI metadata generation (§4.3;
the `generate_metadata` handler is not under the source tree) replaces
`auto_metadata` wholesale with the generated record and sets
`auto_generated = true`. -/
def applyGeneratedMetadata (it : Item) (g : AutoMetadata) : Item :=
  { it with auto_metadata := { g with auto_generated := true } }

/-- Modelled from the spec: a manual form save (§4.3; the
`update_metadata` handler is not under the source tree) carries the
edited sub-fields of `auto_metadata`; a missing sub-field is left
untouched and no regeneration happens. -/
structure MetadataPatch where
  summary : Option String
  language : Option String
  contentType : Option String
  themes : Option (List String)
  topics : Option (List String)
  keywords : Option (List String)
  entities : Option (List String)

/-- Modelled from the spec: application of a manual form save — only
the provided sub-fields of `auto_metadata` are updated. -/
def applyMetadataPatch (it : Item) (p : MetadataPatch) : Item :=
  { it with auto_metadata :=
      { it.auto_metadata with
        summary := p.summary.getD it.auto_metadata.summary
        language := p.language.getD it.auto_metadata.language
        contentType := p.contentType.getD it.auto_metadata.contentType
        themes := p.themes.getD it.auto_metadata.themes
        topics := p.topics.getD it.auto_metadata.topics
        keywords := p.keywords.getD it.auto_metadata.keywords
        entities := p.entities.getD it.auto_metadata.entities } }

/-- C7: successful AI generation replaces `auto_metadata` wholesale and
sets the `auto_generated` flag to true, while a manual form save
updates exactly the provided sub-fields of `auto_metadata`, leaves the
missing ones untouched, and changes nothing else on the item. -/
theorem metadata_generation_and_partial_edit (it : Item) (g : AutoMetadata)
    (p : MetadataPatch) :
    ((applyGeneratedMetadata it g).auto_metadata = { g with auto_generated := true } ∧
      (applyGeneratedMetadata it g).auto_metadata.auto_generated = true ∧
      (applyGeneratedMetadata it g).id = it.id) ∧
    ((applyMetadataPatch it p).id = it.id ∧
      (applyMetadataPatch it p).title = it.title ∧
      (applyMetadataPatch it p).type = it.type ∧
      (applyMetadataPatch it p).folder = it.folder) ∧
    (p.summary = none →
      (applyMetadataPatch it p).auto_metadata.summary = it.auto_metadata.summary) ∧
    (∀ v, p.summary = some v → (applyMetadataPatch it p).auto_metadata.summary = v) ∧
    (p.language = none →
      (applyMetadataPatch it p).auto_metadata.language = it.auto_metadata.language) ∧
    (∀ v, p.language = some v → (applyMetadataPatch it p).auto_metadata.language = v) ∧
    (p.contentType = none →
      (applyMetadataPatch it p).auto_metadata.contentType = it.auto_metadata.contentType) ∧
    (∀ v, p.contentType = some v →
      (applyMetadataPatch it p).auto_metadata.contentType = v) ∧
    (p.themes = none →
      (applyMetadataPatch it p).auto_metadata.themes = it.auto_metadata.themes) ∧
    (∀ v, p.themes = some v → (applyMetadataPatch it p).auto_metadata.themes = v) ∧
    (p.topics = none →
      (applyMetadataPatch it p).auto_metadata.topics = it.auto_metadata.topics) ∧
    (∀ v, p.topics = some v → (applyMetadataPatch it p).auto_metadata.topics = v) ∧
    (p.keywords = none →
      (applyMetadataPatch it p).auto_metadata.keywords = it.auto_metadata.keywords) ∧
    (∀ v, p.keywords = some v → (applyMetadataPatch it p).auto_metadata.keywords = v) ∧
    (p.entities = none →
      (applyMetadataPatch it p).auto_metadata.entities = it.auto_metadata.entities) ∧
    (∀ v, p.entities = some v → (applyMetadataPatch it p).auto_metadata.entities = v) := by
  refine ⟨⟨rfl, rfl, rfl⟩, ⟨rfl, rfl, rfl, rfl⟩,
    ?_, ?_, ?_, ?_, ?_, ?_, ?_, ?_, ?_, ?_, ?_, ?_, ?_, ?_⟩
  all_goals first
    | (intro v h; simp [applyMetadataPatch, h])
    | (intro h; simp [applyMetadataPatch, h])

def demoPatch : MetadataPatch := ⟨some "s", none, none, none, none, none, none⟩

/-- Witness for C7 at a concrete input. -/
theorem metadata_generation_and_partial_edit_witness :
    (applyMetadataPatch algebraNotes demoPatch).auto_metadata.summary = "s" ∧
    (applyMetadataPatch algebraNotes demoPatch).auto_metadata.language =
      algebraNotes.auto_metadata.language := by
  have h := metadata_generation_and_partial_edit algebraNotes defaultAutoMetadata demoPatch
  exact ⟨h.2.2.2.1 "s" rfl, h.2.2.2.2.1 rfl⟩

/-- Guard of the templates: the refresh form is rendered only when
`item.type == 'page' or item.type == 'database'` (`templates/base.html`
and the cached-content view template). -/
def refreshOffered (ty : String) : Bool := ty == "page" || ty == "database"

/-- Modelled from the spec: a completed refresh (§4.3; the
`refresh_item` handler is not under the source tree) re-fetches the
content from the origin and rebuilds the indexed representation for the
guarded types only, preserving `id` and `folder`; the title follows the
origin title. -/
def refreshItem (it : Item) (originTitle : String) : Item :=
  if refreshOffered it.type then { it with title := originTitle } else it

/-- C8: refresh applies only to items of type page or database — for
any other type nothing is offered or performed — and a completed
refresh preserves the item id and folder, and its title whenever the
origin title did not change. -/
theorem refresh_applicability_and_frame (it : Item) (originTitle : String) :
    (∀ ty : String, refreshOffered ty = true ↔ ty = "page" ∨ ty = "database") ∧
    (it.type ≠ "page" → it.type ≠ "database" → refreshItem it originTitle = it) ∧
    (refreshItem it originTitle).id = it.id ∧
    (refreshItem it originTitle).folder = it.folder ∧
    (originTitle = it.title → (refreshItem it originTitle).title = it.title) := by
  refine ⟨?_, ?_, ?_, ?_, ?_⟩
  · intro ty
    simp [refreshOffered]
  · intro hp hd
    have hoff : refreshOffered it.type = false := by
      simp [refreshOffered, hp, hd]
    simp [refreshItem, hoff]
  · unfold refreshItem
    split <;> rfl
  · unfold refreshItem
    split <;> rfl
  · intro h
    unfold refreshItem
    split
    · simpa using h
    · rfl

/-- Witness for C8 at a concrete input. -/
theorem refresh_applicability_and_frame_witness :
    refreshItem algebraNotes "New Title" = algebraNotes :=
  (refresh_applicability_and_frame algebraNotes "New Title").2.1 (by decide) (by decide)

/-- First page-number bound of the pagination window, from
`templates/base.html` and the cached-content view template:
`start_page = [(page - 2), 1]|max`. -/
def startPageFirst (page : Int) : Int := max (page - 2) 1

/-- Upper end of the pagination window: `end_page = [(start_page + 4),
total_pages]|min`. -/
def endPage (page total : Int) : Int := min (startPageFirst page + 4) total

/-- Recomputed lower end of the pagination window: `start_page =
[(end_page - 4), 1]|max`. -/
def startPage (page total : Int) : Int := max (endPage page total - 4) 1

/-- C10: for `1 <= page <= total_pages` the page-number window
`range(start_page, end_page + 1)` of the templates satisfies
`start_page <= page <= end_page` and spans exactly `min 5 total_pages`
consecutive page numbers, where `end_page = min(max(page - 2, 1) + 4,
total_pages)` and `start_page = max(end_page - 4, 1)`. -/
theorem pagination_window_bounds (page total : Int) (h1 : 1 ≤ page)
    (h2 : page ≤ total) :
    endPage page total = min (max (page - 2) 1 + 4) total ∧
    startPage page total = max (endPage page total - 4) 1 ∧
    startPage page total ≤ page ∧ page ≤ endPage page total ∧
    endPage page total - startPage page total + 1 = min 5 total := by
  refine ⟨rfl, rfl, ?_, ?_, ?_⟩
  all_goals
    simp only [startPage, endPage, startPageFirst, max_def, min_def]
    split_ifs <;> omega

/-- Witness for C10 at a concrete input. -/
theorem pagination_window_bounds_witness :
    startPage 3 10 ≤ 3 ∧ (3 : Int) ≤ endPage 3 10 ∧
      endPage 3 10 - startPage 3 10 + 1 = min 5 10 := by
  have h := pagination_window_bounds 3 10 (by decide) (by decide)
  exact ⟨h.2.2.1, h.2.2.2.1, h.2.2.2.2⟩

end Llog
